import Mathlib

/-!
Verification development for the `mcp_server_qdrant` repository.

The definitions below are a shallow embedding of `src/mcp_server_qdrant/qdrant.py`:
the in-memory `BM25Indexer` (vocabulary, document-frequency statistics, BM25
scoring) and the `QdrantConnector` operations `update`, `delete`, `search` and
`find_hybrid`.

Modelling conventions:
- Python floats are modelled as exact rationals; the transcendental
  `math.log` is modelled as an abstract parameter `ln : Rat -> Rat`, so every
  theorem about scores holds for an arbitrary interpretation of the logarithm.
- Python dicts and Counters are modelled as association lists in insertion
  order; dict equality in Python ignores order, which corresponds to
  lookup-extensional equality of the association lists.
- The regex token class of `re.findall(r"\w+", ...)` is modelled on its ASCII
  fragment (letters, digits, underscore), which is the fragment every claim
  exercises.
- The asynchronous Qdrant client is modelled as a deterministic environment:
  stored collections are explicit data, and the two query endpoints are oracle
  functions; the fused multi-stage query returns an `Except` so that its
  failure modes can be analysed.
-/

namespace MCPQdrant

/-! ### Association-list model of Python dict / Counter -/

/-- Lookup of a key in an insertion-ordered association list (Python `d[k]` /
`d.get(k)`). -/
def lookupKey {α : Type} : List (String × α) → String → Option α
  | [], _ => none
  | (k, v) :: rest, t => if k = t then some v else lookupKey rest t

/-- Assignment `d[k] = v` on a Python dict: overwrites in place when the key is
present, appends at the end otherwise. -/
def setKey {α : Type} : List (String × α) → String → α → List (String × α)
  | [], t, v => [(t, v)]
  | (k, w) :: rest, t, v =>
    if k = t then (k, v) :: rest else (k, w) :: setKey rest t v

/-- Deletion `del d[k]` on a Python dict: removes the (unique) binding of the
key; a no-op when the key is absent. -/
def eraseKey {α : Type} : List (String × α) → String → List (String × α)
  | [], _ => []
  | (k, w) :: rest, t => if k = t then rest else (k, w) :: eraseKey rest t

/-- The keys of the association list are pairwise distinct — the invariant a
Python dict maintains by construction. -/
def KeysNodup {α : Type} (m : List (String × α)) : Prop :=
  (m.map Prod.fst).Nodup

instance {α : Type} (m : List (String × α)) : Decidable (KeysNodup m) := by
  unfold KeysNodup; infer_instance

/-! ### Tokenization (`BM25Indexer._tokenize`) -/

/-- Python `str.lower()` on its ASCII fragment: lowercase character by
character. -/
def strLower (s : String) : String :=
  String.mk (s.data.map Char.toLower)

/-- ASCII fragment of the regex class `\w`. -/
def isWordChar (c : Char) : Bool :=
  c.isAlphanum || c = '_'

/-- Splits a lowercased character stream into maximal runs of word characters,
mirroring `re.findall(r"\w+", text)`. -/
def tokenizeAux : List Char → List Char → List String
  | [], acc => if acc.isEmpty then [] else [String.mk acc.reverse]
  | c :: cs, acc =>
    if isWordChar c then tokenizeAux cs (c :: acc)
    else if acc.isEmpty then tokenizeAux cs acc
    else String.mk acc.reverse :: tokenizeAux cs []

/-- `BM25Indexer._tokenize`: `re.findall(r"\w+", text.lower())`. -/
def tokenize (text : String) : List String :=
  tokenizeAux (strLower text).data []

/-- Term-frequency map of a token list: `collections.Counter(tokens)`, keys in
first-seen order. -/
abbrev TfMap := List (String × Nat)

/-- One step of building a `Counter`: bump the count of one token. -/
def bumpTf : TfMap → String → TfMap
  | [], t => [(t, 1)]
  | (k, v) :: rest, t =>
    if k = t then (k, v + 1) :: rest else (k, v) :: bumpTf rest t

/-- `collections.Counter(tokens)`. -/
def countTokens (tokens : List String) : TfMap :=
  tokens.foldl bumpTf []

/-! ### BM25 indexer state (`BM25Indexer`) -/

/-- The mutable state of `BM25Indexer`.  The vocabulary dict `term -> id` is
represented as the list of terms in insertion order (ids are assigned as
`len(vocab)` at insertion and never reused, so a term's id is its position). -/
structure BM25State where
  max_vocab : Nat
  k1 : Rat
  b : Rat
  vocab : List String
  df : List (String × Int)
  N : Int
  doc_lens_total : Int
  docs : List (String × (TfMap × Nat))
deriving Repr

/-- `BM25Indexer.__init__` with the source defaults. -/
def BM25State.init (max_vocab : Nat := 32768) (k1 : Rat := 3/2) (b : Rat := 3/4) :
    BM25State :=
  { max_vocab := max_vocab, k1 := k1, b := b, vocab := [], df := [],
    N := 0, doc_lens_total := 0, docs := [] }

/-- Property `BM25Indexer.avgdl`: `doc_lens_total / N` when `N > 0`, else `1.0`. -/
def BM25State.avgdl (s : BM25State) : Rat :=
  if s.N > 0 then (s.doc_lens_total : Rat) / (s.N : Rat) else 1

/-- `self.df.get(term, 0)`. -/
def BM25State.dfGet (s : BM25State) (term : String) : Int :=
  (lookupKey s.df term).getD 0

/-- Position of a term in the vocabulary list, i.e. `self.vocab.get(term)`:
the id a term was assigned at insertion, if any. -/
def vocabIdx : List String → String → Option Nat
  | [], _ => none
  | v :: rest, t => if v = t then some 0 else (vocabIdx rest t).map (· + 1)

/-- `BM25Indexer._ensure_term`: the existing id if known; a freshly assigned
sequential id when below capacity; no id (and no side effect) at capacity. -/
def BM25State.ensure_term (s : BM25State) (term : String) : BM25State × Option Nat :=
  match vocabIdx s.vocab term with
  | some i => (s, some i)
  | none =>
    if s.vocab.length ≥ s.max_vocab then (s, none)
    else ({ s with vocab := s.vocab ++ [term] }, some s.vocab.length)

/-- `self.df[term] += 1` on the `Counter` (missing keys default to 0 and are
inserted at the end). -/
def dfInc (df : List (String × Int)) (term : String) : List (String × Int) :=
  setKey df term ((lookupKey df term).getD 0 + 1)

/-- `self.df[term] -= 1` followed by `if self.df[term] <= 0: del self.df[term]`. -/
def dfDec (df : List (String × Int)) (term : String) : List (String × Int) :=
  let v := (lookupKey df term).getD 0 - 1
  if v ≤ 0 then eraseKey df term else setKey df term v

/-- The shared removal pattern of `add_or_update` (update branch) and `remove`:
decrement `df` for each distinct term of the old document and subtract its
length from the running total.  The document map itself is not touched. -/
def removeContribution (s : BM25State) (old_tf : TfMap) (old_len : Nat) : BM25State :=
  { s with df := old_tf.foldl (fun d p => dfDec d p.1) s.df,
           doc_lens_total := s.doc_lens_total - (old_len : Int) }

/-- Loop body of the `for term in tf.keys()` loop of `add_or_update`:
`self.df[term] += 1; self._ensure_term(term)`. -/
def addTermStep (s : BM25State) (p : String × Nat) : BM25State :=
  (BM25State.ensure_term { s with df := dfInc s.df p.1 } p.1).1

/-- The BM25 denominator `freq + k1 * (1 - b + b * (doc_len / max(1.0, avgdl)))`
of lines 103 and 125 of `qdrant.py`. -/
def scoreDenom (k1 b : Rat) (freq doc_len : Nat) (avgdl : Rat) : Rat :=
  (freq : Rat) + k1 * (1 - b + b * ((doc_len : Rat) / max 1 avgdl))

/-- The full BM25 weight of one scored term:
`idf * (freq * (k1 + 1)) / denom` with the smoothed idf
`ln(1 + (N - df + 0.5) / (df + 0.5))`. -/
def bm25Score (ln : Rat → Rat) (k1 b : Rat) (N df : Int) (freq doc_len : Nat)
    (avgdl : Rat) : Rat :=
  ln (1 + ((N : Rat) - (df : Rat) + 1/2) / ((df : Rat) + 1/2)) *
    ((freq : Rat) * (k1 + 1) / scoreDenom k1 b freq doc_len avgdl)

/-- `BM25Indexer.add_or_update`: full re-index of one document followed by
scoring every distinct term that holds a vocabulary id, using the post-update
statistics. -/
def BM25State.add_or_update (s : BM25State) (ln : Rat → Rat) (doc_id text : String) :
    BM25State × (List Nat × List Rat) :=
  let tokens := tokenize text
  let tf := countTokens tokens
  let doc_len := tokens.length
  let s1 :=
    match lookupKey s.docs doc_id with
    | some (old_tf, old_len) => removeContribution s old_tf old_len
    | none => { s with N := s.N + 1 }
  let s2 := tf.foldl addTermStep s1
  let s3 := { s2 with doc_lens_total := s2.doc_lens_total + (doc_len : Int),
                      docs := setKey s2.docs doc_id (tf, doc_len) }
  let out := tf.foldl
    (fun (acc : List Nat × List Rat) p =>
      match vocabIdx s3.vocab p.1 with
      | none => acc
      | some idx =>
        (acc.1 ++ [idx],
         acc.2 ++ [bm25Score ln s3.k1 s3.b s3.N (s3.dfGet p.1) p.2 doc_len s3.avgdl]))
    ([], [])
  (s3, out)

/-- `BM25Indexer.transform`: query scoring against the current statistics,
with the early empty return when `N == 0`.  The state is threaded through and
returned so that the absence of mutation is a provable statement. -/
def BM25State.transform (s : BM25State) (ln : Rat → Rat) (text : String) :
    BM25State × (List Nat × List Rat) :=
  let tokens := tokenize text
  let tf := countTokens tokens
  let doc_len := tokens.length
  if s.N = 0 then (s, ([], []))
  else
    let out := tf.foldl
      (fun (acc : List Nat × List Rat) p =>
        match vocabIdx s.vocab p.1 with
        | none => acc
        | some idx =>
          (acc.1 ++ [idx],
           acc.2 ++ [bm25Score ln s.k1 s.b s.N (s.dfGet p.1) p.2 doc_len s.avgdl]))
      ([], [])
    (s, out)

/-- `BM25Indexer.remove`: pops the document record, reverses its statistics
contribution and decrements `N` floored at zero; a no-op on unknown ids. -/
def BM25State.remove (s : BM25State) (doc_id : String) : BM25State :=
  match lookupKey s.docs doc_id with
  | none => s
  | some (old_tf, old_len) =>
    let s1 := removeContribution { s with docs := eraseKey s.docs doc_id } old_tf old_len
    { s1 with N := max 0 (s1.N - 1) }

/-! ### Association-list lemmas -/

section AssocLemmas

variable {α : Type}

theorem lookupKey_setKey_self (m : List (String × α)) (t : String) (v : α) :
    lookupKey (setKey m t v) t = some v := by
  induction m with
  | nil => simp [setKey, lookupKey]
  | cons p rest ih =>
    obtain ⟨k, w⟩ := p
    by_cases h : k = t <;> simp [setKey, lookupKey, h, ih]

theorem lookupKey_setKey_ne (m : List (String × α)) {u t : String} (v : α) (h : u ≠ t) :
    lookupKey (setKey m t v) u = lookupKey m u := by
  induction m with
  | nil => simp [setKey, lookupKey, Ne.symm h]
  | cons p rest ih =>
    obtain ⟨k, w⟩ := p
    by_cases hk : k = t
    · subst hk
      simp [setKey, lookupKey, Ne.symm h]
    · simp [setKey, lookupKey, hk, ih]

theorem lookupKey_mem {m : List (String × α)} {t : String} {v : α}
    (h : lookupKey m t = some v) : (t, v) ∈ m := by
  induction m with
  | nil => simp [lookupKey] at h
  | cons p rest ih =>
    obtain ⟨k, w⟩ := p
    by_cases hk : k = t
    · subst hk
      simp [lookupKey] at h
      simp [h]
    · simp [lookupKey, hk] at h
      exact List.mem_cons_of_mem _ (ih h)

theorem lookupKey_eq_none_iff (m : List (String × α)) (t : String) :
    lookupKey m t = none ↔ t ∉ m.map Prod.fst := by
  induction m with
  | nil => simp [lookupKey]
  | cons p rest ih =>
    obtain ⟨k, w⟩ := p
    by_cases hk : k = t
    · subst hk
      simp [lookupKey]
    · simp [lookupKey, hk, ih, Ne.symm hk]

theorem lookupKey_eraseKey_ne (m : List (String × α)) {u t : String} (h : u ≠ t) :
    lookupKey (eraseKey m t) u = lookupKey m u := by
  induction m with
  | nil => simp [eraseKey]
  | cons p rest ih =>
    obtain ⟨k, w⟩ := p
    by_cases hk : k = t
    · subst hk
      simp [eraseKey, lookupKey, Ne.symm h]
    · simp [eraseKey, lookupKey, hk, ih]

theorem lookupKey_eraseKey_self {m : List (String × α)} (hm : KeysNodup m) (t : String) :
    lookupKey (eraseKey m t) t = none := by
  induction m with
  | nil => simp [eraseKey, lookupKey]
  | cons p rest ih =>
    obtain ⟨k, w⟩ := p
    have hrest : KeysNodup rest := (List.nodup_cons.mp hm).2
    by_cases hk : k = t
    · subst hk
      simp [eraseKey]
      rw [lookupKey_eq_none_iff]
      exact (List.nodup_cons.mp hm).1
    · simp [eraseKey, lookupKey, hk, ih hrest]

theorem mem_setKey {m : List (String × α)} {t : String} {v : α} {p : String × α}
    (h : p ∈ setKey m t v) : p = (t, v) ∨ p ∈ m := by
  induction m with
  | nil => simp [setKey] at h; simp [h]
  | cons q rest ih =>
    obtain ⟨k, w⟩ := q
    by_cases hk : k = t
    · subst hk
      simp [setKey] at h
      rcases h with h | h
      · exact Or.inl (by simp [h])
      · exact Or.inr (List.mem_cons_of_mem _ h)
    · simp [setKey, hk] at h
      rcases h with h | h
      · exact Or.inr (by simp [h])
      · rcases ih h with h' | h'
        · exact Or.inl h'
        · exact Or.inr (List.mem_cons_of_mem _ h')

theorem mem_eraseKey {m : List (String × α)} {t : String} {p : String × α}
    (h : p ∈ eraseKey m t) : p ∈ m := by
  induction m with
  | nil => simp [eraseKey] at h
  | cons q rest ih =>
    obtain ⟨k, w⟩ := q
    by_cases hk : k = t
    · subst hk
      simp [eraseKey] at h
      exact List.mem_cons_of_mem _ h
    · simp [eraseKey, hk] at h
      rcases h with h | h
      · simp [h]
      · exact List.mem_cons_of_mem _ (ih h)

theorem mem_keys_setKey {m : List (String × α)} {t u : String} {v : α}
    (h : u ∈ (setKey m t v).map Prod.fst) : u ∈ m.map Prod.fst ∨ u = t := by
  simp only [List.mem_map] at h
  obtain ⟨p, hp, hu⟩ := h
  rcases mem_setKey hp with h' | h'
  · right; rw [← hu, h']
  · left; exact List.mem_map.mpr ⟨p, h', hu⟩

theorem keysNodup_setKey {m : List (String × α)} (hm : KeysNodup m) (t : String) (v : α) :
    KeysNodup (setKey m t v) := by
  induction m with
  | nil => simp [setKey, KeysNodup]
  | cons q rest ih =>
    obtain ⟨k, w⟩ := q
    have hout := (List.nodup_cons.mp hm).1
    have hrest : KeysNodup rest := (List.nodup_cons.mp hm).2
    by_cases hk : k = t
    · subst hk
      unfold KeysNodup at hm ⊢
      simpa [setKey] using hm
    · unfold KeysNodup
      simp only [setKey, hk, if_false, List.map_cons, List.nodup_cons]
      refine ⟨fun hc => ?_, ih hrest⟩
      rcases mem_keys_setKey hc with h' | h'
      · exact hout h'
      · exact hk h'

theorem keysNodup_eraseKey {m : List (String × α)} (hm : KeysNodup m) (t : String) :
    KeysNodup (eraseKey m t) := by
  induction m with
  | nil => simp [eraseKey, KeysNodup]
  | cons q rest ih =>
    obtain ⟨k, w⟩ := q
    have hout := (List.nodup_cons.mp hm).1
    have hrest : KeysNodup rest := (List.nodup_cons.mp hm).2
    by_cases hk : k = t
    · subst hk
      simpa [eraseKey] using hrest
    · unfold KeysNodup
      simp only [eraseKey, hk, if_false, List.map_cons, List.nodup_cons]
      refine ⟨fun hc => ?_, ih hrest⟩
      simp only [List.mem_map] at hc
      obtain ⟨p, hp, hu⟩ := hc
      exact hout (List.mem_map.mpr ⟨p, mem_eraseKey hp, hu⟩)

theorem setKey_length_found {m : List (String × α)} {t : String} {w : α}
    (h : lookupKey m t = some w) (v : α) : (setKey m t v).length = m.length := by
  induction m with
  | nil => simp [lookupKey] at h
  | cons q rest ih =>
    obtain ⟨k, w'⟩ := q
    by_cases hk : k = t
    · simp [setKey, hk]
    · simp only [lookupKey, hk, if_false] at h
      simp [setKey, hk, ih h]

theorem setKey_length_not_found {m : List (String × α)} {t : String}
    (h : lookupKey m t = none) (v : α) : (setKey m t v).length = m.length + 1 := by
  induction m with
  | nil => simp [setKey]
  | cons q rest ih =>
    obtain ⟨k, w'⟩ := q
    by_cases hk : k = t
    · simp [lookupKey, hk] at h
    · simp only [lookupKey, hk, if_false] at h
      simp [setKey, hk, ih h]

theorem eraseKey_length {m : List (String × α)} {t : String} {w : α}
    (h : lookupKey m t = some w) : (eraseKey m t).length + 1 = m.length := by
  induction m with
  | nil => simp [lookupKey] at h
  | cons q rest ih =>
    obtain ⟨k, w'⟩ := q
    by_cases hk : k = t
    · simp [eraseKey, hk]
    · simp only [lookupKey, hk, if_false] at h
      simp [eraseKey, hk, ih h]

end AssocLemmas

/-! ### Document-frequency map lemmas -/

/-- All stored document frequencies are at least one: the `Counter` discipline
of `BM25Indexer` (entries reaching zero are deleted). -/
def DfPos (m : List (String × Int)) : Prop :=
  ∀ p ∈ m, 1 ≤ p.2

instance (m : List (String × Int)) : Decidable (DfPos m) := by
  unfold DfPos; infer_instance

/-- The df-map effect of the `for term in tf.keys()` increment loop. -/
def foldIncDf (df : List (String × Int)) (tf : TfMap) : List (String × Int) :=
  tf.foldl (fun d p => dfInc d p.1) df

/-- The df-map effect of the removal loop shared by `add_or_update` and
`remove`. -/
def foldDecDf (df : List (String × Int)) (tf : TfMap) : List (String × Int) :=
  tf.foldl (fun d p => dfDec d p.1) df

theorem lookupKey_dfInc_self (m : List (String × Int)) (t : String) :
    lookupKey (dfInc m t) t = some ((lookupKey m t).getD 0 + 1) :=
  lookupKey_setKey_self m t _

theorem lookupKey_dfInc_ne (m : List (String × Int)) {u t : String} (h : u ≠ t) :
    lookupKey (dfInc m t) u = lookupKey m u :=
  lookupKey_setKey_ne m _ h

theorem lookupKey_dfDec_self {m : List (String × Int)} (hm : KeysNodup m) (t : String) :
    lookupKey (dfDec m t) t =
      if (lookupKey m t).getD 0 - 1 ≤ 0 then none
      else some ((lookupKey m t).getD 0 - 1) := by
  unfold dfDec
  by_cases h : (lookupKey m t).getD 0 - 1 ≤ 0
  · simp [h, lookupKey_eraseKey_self hm]
  · simp [h, lookupKey_setKey_self]

theorem lookupKey_dfDec_ne (m : List (String × Int)) {u t : String} (h : u ≠ t) :
    lookupKey (dfDec m t) u = lookupKey m u := by
  unfold dfDec
  by_cases hc : (lookupKey m t).getD 0 - 1 ≤ 0
  · simp [hc, lookupKey_eraseKey_ne m h]
  · simp [hc, lookupKey_setKey_ne m _ h]

theorem keysNodup_dfInc {m : List (String × Int)} (hm : KeysNodup m) (t : String) :
    KeysNodup (dfInc m t) :=
  keysNodup_setKey hm t _

theorem keysNodup_dfDec {m : List (String × Int)} (hm : KeysNodup m) (t : String) :
    KeysNodup (dfDec m t) := by
  unfold dfDec
  by_cases hc : (lookupKey m t).getD 0 - 1 ≤ 0
  · simp only [hc, if_true]
    exact keysNodup_eraseKey hm t
  · simp only [hc, if_false]
    exact keysNodup_setKey hm t _

theorem dfPos_getD {m : List (String × Int)} (hm : DfPos m) (t : String) :
    0 ≤ (lookupKey m t).getD 0 := by
  cases h : lookupKey m t with
  | none => simp
  | some v =>
    have := hm _ (lookupKey_mem h)
    simp only [Option.getD_some]
    omega

theorem dfPos_dfInc {m : List (String × Int)} (hm : DfPos m) (t : String) :
    DfPos (dfInc m t) := by
  intro p hp
  rcases mem_setKey hp with h | h
  · have := dfPos_getD hm t
    simp [h]
    omega
  · exact hm _ h

theorem dfPos_dfDec {m : List (String × Int)} (hm : DfPos m) (t : String) :
    DfPos (dfDec m t) := by
  unfold dfDec
  by_cases hc : (lookupKey m t).getD 0 - 1 ≤ 0
  · simp only [hc, if_true]
    intro p hp
    exact hm _ (mem_eraseKey hp)
  · simp only [hc, if_false]
    intro p hp
    rcases mem_setKey hp with h | h
    · simp [h]; omega
    · exact hm _ h

theorem keysNodup_foldIncDf {m : List (String × Int)} (hm : KeysNodup m) (tf : TfMap) :
    KeysNodup (foldIncDf m tf) := by
  induction tf generalizing m with
  | nil => exact hm
  | cons p rest ih => exact ih (keysNodup_dfInc hm p.1)

theorem keysNodup_foldDecDf {m : List (String × Int)} (hm : KeysNodup m) (tf : TfMap) :
    KeysNodup (foldDecDf m tf) := by
  induction tf generalizing m with
  | nil => exact hm
  | cons p rest ih => exact ih (keysNodup_dfDec hm p.1)

theorem dfPos_foldIncDf {m : List (String × Int)} (hm : DfPos m) (tf : TfMap) :
    DfPos (foldIncDf m tf) := by
  induction tf generalizing m with
  | nil => exact hm
  | cons p rest ih => exact ih (dfPos_dfInc hm p.1)

theorem dfPos_foldDecDf {m : List (String × Int)} (hm : DfPos m) (tf : TfMap) :
    DfPos (foldDecDf m tf) := by
  induction tf generalizing m with
  | nil => exact hm
  | cons p rest ih => exact ih (dfPos_dfDec hm p.1)

theorem lookupKey_foldIncDf_not_mem {tf : TfMap} {u : String}
    (hu : u ∉ tf.map Prod.fst) (m : List (String × Int)) :
    lookupKey (foldIncDf m tf) u = lookupKey m u := by
  induction tf generalizing m with
  | nil => rfl
  | cons p rest ih =>
    simp only [List.map_cons, List.mem_cons, not_or] at hu
    show lookupKey (foldIncDf (dfInc m p.1) rest) u = _
    rw [ih hu.2, lookupKey_dfInc_ne m hu.1]

theorem lookupKey_foldDecDf_not_mem {tf : TfMap} {u : String}
    (hu : u ∉ tf.map Prod.fst) (m : List (String × Int)) :
    lookupKey (foldDecDf m tf) u = lookupKey m u := by
  induction tf generalizing m with
  | nil => rfl
  | cons p rest ih =>
    simp only [List.map_cons, List.mem_cons, not_or] at hu
    show lookupKey (foldDecDf (dfDec m p.1) rest) u = _
    rw [ih hu.2, lookupKey_dfDec_ne m hu.1]

theorem lookupKey_foldIncDf_mem {tf : TfMap} {u : String}
    (htf : (tf.map Prod.fst).Nodup) (hu : u ∈ tf.map Prod.fst)
    (m : List (String × Int)) :
    lookupKey (foldIncDf m tf) u = some ((lookupKey m u).getD 0 + 1) := by
  induction tf generalizing m with
  | nil => simp at hu
  | cons p rest ih =>
    simp only [List.map_cons, List.nodup_cons] at htf
    show lookupKey (foldIncDf (dfInc m p.1) rest) u = _
    by_cases hp : u = p.1
    · subst hp
      rw [lookupKey_foldIncDf_not_mem htf.1, lookupKey_dfInc_self]
    · simp only [List.map_cons, List.mem_cons] at hu
      rcases hu with hu | hu
      · exact absurd hu hp
      · rw [ih htf.2 hu, lookupKey_dfInc_ne m hp]

theorem lookupKey_foldDecDf_mem {tf : TfMap} {u : String}
    (htf : (tf.map Prod.fst).Nodup) (hu : u ∈ tf.map Prod.fst)
    {m : List (String × Int)} (hm : KeysNodup m) :
    lookupKey (foldDecDf m tf) u =
      if (lookupKey m u).getD 0 - 1 ≤ 0 then none
      else some ((lookupKey m u).getD 0 - 1) := by
  induction tf generalizing m with
  | nil => simp at hu
  | cons p rest ih =>
    simp only [List.map_cons, List.nodup_cons] at htf
    show lookupKey (foldDecDf (dfDec m p.1) rest) u = _
    by_cases hp : u = p.1
    · subst hp
      rw [lookupKey_foldDecDf_not_mem htf.1, lookupKey_dfDec_self hm]
    · simp only [List.map_cons, List.mem_cons] at hu
      rcases hu with hu | hu
      · exact absurd hu hp
      · rw [ih htf.2 hu (keysNodup_dfDec hm p.1), lookupKey_dfDec_ne m hp]

/-- Cancellation at the heart of same-id re-indexing: incrementing the
frequencies of a set of distinct terms, decrementing them again, then
incrementing once more is — observed through lookups — the same as
incrementing once, provided every stored frequency is positive. -/
theorem foldDecDf_foldIncDf_cancel {m : List (String × Int)} (hm : KeysNodup m)
    (hpos : DfPos m) {tf : TfMap} (htf : (tf.map Prod.fst).Nodup) (u : String) :
    lookupKey (foldIncDf (foldDecDf (foldIncDf m tf) tf) tf) u =
      lookupKey (foldIncDf m tf) u := by
  by_cases hu : u ∈ tf.map Prod.fst
  · have h1 : lookupKey (foldIncDf m tf) u = some ((lookupKey m u).getD 0 + 1) :=
      lookupKey_foldIncDf_mem htf hu m
    have hnd1 : KeysNodup (foldIncDf m tf) := keysNodup_foldIncDf hm tf
    have h2 := lookupKey_foldDecDf_mem htf hu hnd1
    rw [h1] at h2
    have hg : 0 ≤ (lookupKey m u).getD 0 := dfPos_getD hpos u
    rw [lookupKey_foldIncDf_mem htf hu, h1]
    by_cases hz : (lookupKey m u).getD 0 = 0
    · rw [hz] at h2 ⊢
      simp only [Option.getD_some] at h2
      norm_num at h2
      rw [h2]
      simp
    · have hgt : 0 < (lookupKey m u).getD 0 := lt_of_le_of_ne hg (Ne.symm hz)
      simp only [Option.getD_some] at h2
      have hcond : ¬ ((lookupKey m u).getD 0 + 1 - 1 ≤ 0) := by omega
      rw [if_neg hcond] at h2
      rw [h2]
      simp only [Option.getD_some]
      congr 1
      omega
  · rw [lookupKey_foldIncDf_not_mem hu, lookupKey_foldDecDf_not_mem hu,
        lookupKey_foldIncDf_not_mem hu]

/-! ### Term-frequency map facts -/

theorem keys_bumpTf (m : TfMap) (t : String) :
    (bumpTf m t).map Prod.fst =
      if t ∈ m.map Prod.fst then m.map Prod.fst else m.map Prod.fst ++ [t] := by
  induction m with
  | nil => simp [bumpTf]
  | cons p rest ih =>
    obtain ⟨k, v⟩ := p
    by_cases hk : k = t
    · subst hk
      simp [bumpTf]
    · simp only [bumpTf, hk, if_false, List.map_cons, ih]
      by_cases hmem : t ∈ rest.map Prod.fst <;>
        simp [hmem, Ne.symm hk, List.mem_cons]

theorem tfPos_bumpTf {m : TfMap} (hm : ∀ p ∈ m, 1 ≤ p.2) (t : String) :
    ∀ p ∈ bumpTf m t, 1 ≤ p.2 := by
  induction m with
  | nil =>
    intro p hp
    simp [bumpTf] at hp
    simp [hp]
  | cons q rest ih =>
    obtain ⟨k, v⟩ := q
    intro p hp
    by_cases hk : k = t
    · subst hk
      simp only [bumpTf, if_true] at hp
      rcases List.mem_cons.mp hp with h | h
      · simp [h]
      · exact hm _ (List.mem_cons_of_mem _ h)
    · simp only [bumpTf, hk, if_false] at hp
      rcases List.mem_cons.mp hp with h | h
      · exact h ▸ hm _ (by simp)
      · exact ih (fun q hq => hm _ (List.mem_cons_of_mem _ hq)) _ h

theorem keysNodup_bumpTf {m : TfMap} (hm : (m.map Prod.fst).Nodup) (t : String) :
    ((bumpTf m t).map Prod.fst).Nodup := by
  rw [keys_bumpTf]
  by_cases hmem : t ∈ m.map Prod.fst
  · simpa [hmem]
  · simp only [hmem, if_false]
    simp [List.nodup_append, hmem, hm]

theorem countTokens_keysNodup (tokens : List String) :
    ((countTokens tokens).map Prod.fst).Nodup := by
  suffices h : ∀ m : TfMap, (m.map Prod.fst).Nodup →
      ((tokens.foldl bumpTf m).map Prod.fst).Nodup from h [] (by simp)
  induction tokens with
  | nil => exact fun m hm => hm
  | cons t rest ih => exact fun m hm => ih _ (keysNodup_bumpTf hm t)

theorem countTokens_pos (tokens : List String) :
    ∀ p ∈ countTokens tokens, 1 ≤ p.2 := by
  suffices h : ∀ m : TfMap, (∀ p ∈ m, 1 ≤ p.2) →
      ∀ p ∈ tokens.foldl bumpTf m, 1 ≤ p.2 from h [] (by simp)
  induction tokens with
  | nil => exact fun m hm => hm
  | cons t rest ih => exact fun m hm => ih _ (tfPos_bumpTf hm t)

/-! ### Componentwise characterization of the indexer operations -/

theorem ensure_term_fst_eq (s : BM25State) (t : String) :
    ∃ V, (s.ensure_term t).1 = { s with vocab := V } := by
  unfold BM25State.ensure_term
  cases vocabIdx s.vocab t with
  | some i => exact ⟨s.vocab, rfl⟩
  | none =>
    by_cases hc : s.vocab.length ≥ s.max_vocab
    · simp only [hc, if_true]
      exact ⟨s.vocab, rfl⟩
    · simp only [hc, if_false]
      exact ⟨s.vocab ++ [t], rfl⟩

theorem ensure_term_cap {s : BM25State} (h : s.vocab.length ≤ s.max_vocab) (t : String) :
    (s.ensure_term t).1.vocab.length ≤ (s.ensure_term t).1.max_vocab := by
  unfold BM25State.ensure_term
  cases vocabIdx s.vocab t with
  | some i => simpa using h
  | none =>
    by_cases hc : s.vocab.length ≥ s.max_vocab
    · simpa [hc] using h
    · simp only [hc, if_false]
      simp only [List.length_append, List.length_singleton]
      omega

theorem addTermStep_eq (s : BM25State) (p : String × Nat) :
    ∃ V, addTermStep s p = { s with df := dfInc s.df p.1, vocab := V } := by
  obtain ⟨V, hV⟩ := ensure_term_fst_eq { s with df := dfInc s.df p.1 } p.1
  exact ⟨V, hV⟩

theorem foldl_addTermStep_eq (tf : TfMap) (s : BM25State) :
    ∃ V, tf.foldl addTermStep s = { s with df := foldIncDf s.df tf, vocab := V } := by
  induction tf generalizing s with
  | nil => exact ⟨s.vocab, rfl⟩
  | cons p rest ih =>
    obtain ⟨W, hW⟩ := addTermStep_eq s p
    obtain ⟨V, hV⟩ := ih (addTermStep s p)
    refine ⟨V, ?_⟩
    show rest.foldl addTermStep (addTermStep s p) = _
    rw [hV, hW]
    rfl

theorem addTermStep_cap {s : BM25State} (h : s.vocab.length ≤ s.max_vocab)
    (p : String × Nat) : (addTermStep s p).vocab.length ≤ (addTermStep s p).max_vocab :=
  ensure_term_cap (s := { s with df := dfInc s.df p.1 }) h p.1

theorem foldl_addTermStep_cap {s : BM25State} (h : s.vocab.length ≤ s.max_vocab)
    (tf : TfMap) :
    (tf.foldl addTermStep s).vocab.length ≤ (tf.foldl addTermStep s).max_vocab := by
  induction tf generalizing s with
  | nil => exact h
  | cons p rest ih => exact ih (addTermStep_cap h p)

theorem add_or_update_fst_not_found {s : BM25State} {d : String}
    (h : lookupKey s.docs d = none) (ln : Rat → Rat) (t : String) :
    ∃ V, (s.add_or_update ln d t).1 =
      { s with df := foldIncDf s.df (countTokens (tokenize t)),
               vocab := V,
               N := s.N + 1,
               doc_lens_total := s.doc_lens_total + ((tokenize t).length : Int),
               docs := setKey s.docs d (countTokens (tokenize t), (tokenize t).length) } := by
  obtain ⟨V, hV⟩ :=
    foldl_addTermStep_eq (countTokens (tokenize t)) { s with N := s.N + 1 }
  refine ⟨V, ?_⟩
  unfold BM25State.add_or_update
  simp only [h]
  rw [hV]

theorem add_or_update_fst_found {s : BM25State} {d : String} {otf : TfMap} {olen : Nat}
    (h : lookupKey s.docs d = some (otf, olen)) (ln : Rat → Rat) (t : String) :
    ∃ V, (s.add_or_update ln d t).1 =
      { s with df := foldIncDf (foldDecDf s.df otf) (countTokens (tokenize t)),
               vocab := V,
               N := s.N,
               doc_lens_total :=
                 s.doc_lens_total - (olen : Int) + ((tokenize t).length : Int),
               docs := setKey s.docs d (countTokens (tokenize t), (tokenize t).length) } := by
  obtain ⟨V, hV⟩ :=
    foldl_addTermStep_eq (countTokens (tokenize t)) (removeContribution s otf olen)
  refine ⟨V, ?_⟩
  unfold BM25State.add_or_update
  simp only [h]
  rw [hV]
  rfl

theorem transform_fst_eq (s : BM25State) (ln : Rat → Rat) (t : String) :
    (s.transform ln t).1 = s := by
  unfold BM25State.transform
  by_cases h : s.N = 0
  · simp only [h, if_true]
  · simp only [h, if_false]

theorem remove_eq_not_found {s : BM25State} {d : String}
    (h : lookupKey s.docs d = none) : s.remove d = s := by
  unfold BM25State.remove
  simp only [h]

theorem remove_eq_found {s : BM25State} {d : String} {otf : TfMap} {olen : Nat}
    (h : lookupKey s.docs d = some (otf, olen)) :
    s.remove d =
      { s with df := foldDecDf s.df otf,
               N := max 0 (s.N - 1),
               doc_lens_total := s.doc_lens_total - (olen : Int),
               docs := eraseKey s.docs d } := by
  unfold BM25State.remove
  simp only [h]
  rfl

/-! ### The state invariant of the indexer -/

/-- The invariant maintained by `BM25Indexer`: all stored document frequencies
are positive (absence from the df map is equivalent to a zero frequency),
the df and document maps are genuine dicts (distinct keys), `N` counts the
documents currently present, and the vocabulary never exceeds its cap. -/
def BM25State.Inv (s : BM25State) : Prop :=
  DfPos s.df ∧ KeysNodup s.df ∧ KeysNodup s.docs ∧
    s.N = (s.docs.length : Int) ∧ s.vocab.length ≤ s.max_vocab

instance (s : BM25State) : Decidable s.Inv := by
  unfold BM25State.Inv; infer_instance

theorem Inv_init (max_vocab : Nat) (k1 b : Rat) :
    (BM25State.init max_vocab k1 b).Inv := by
  refine ⟨?_, ?_, ?_, ?_, ?_⟩ <;> simp [BM25State.init, DfPos, KeysNodup]

theorem add_or_update_cap {s : BM25State} (h : s.vocab.length ≤ s.max_vocab)
    (ln : Rat → Rat) (d t : String) :
    (s.add_or_update ln d t).1.vocab.length ≤ (s.add_or_update ln d t).1.max_vocab := by
  unfold BM25State.add_or_update
  cases hd : lookupKey s.docs d with
  | none =>
    simp only [hd]
    exact foldl_addTermStep_cap (s := { s with N := s.N + 1 }) h _
  | some pr =>
    obtain ⟨otf, olen⟩ := pr
    simp only [hd]
    exact foldl_addTermStep_cap (s := removeContribution s otf olen) h _

theorem Inv_add_or_update {s : BM25State} (h : s.Inv) (ln : Rat → Rat) (d t : String) :
    ((s.add_or_update ln d t).1).Inv := by
  obtain ⟨hpos, hdf, hdocs, hN, hcap⟩ := h
  have hcap' := add_or_update_cap hcap ln d t
  cases hd : lookupKey s.docs d with
  | none =>
    obtain ⟨V, hV⟩ := add_or_update_fst_not_found hd ln t
    rw [hV] at hcap' ⊢
    refine ⟨dfPos_foldIncDf hpos _, keysNodup_foldIncDf hdf _,
            keysNodup_setKey hdocs _ _, ?_, hcap'⟩
    have hlen := setKey_length_not_found hd (countTokens (tokenize t), (tokenize t).length)
    simp only [hlen]
    push_cast
    omega
  | some pr =>
    obtain ⟨otf, olen⟩ := pr
    obtain ⟨V, hV⟩ := add_or_update_fst_found hd ln t
    rw [hV] at hcap' ⊢
    refine ⟨dfPos_foldIncDf (dfPos_foldDecDf hpos _) _,
            keysNodup_foldIncDf (keysNodup_foldDecDf hdf _) _,
            keysNodup_setKey hdocs _ _, ?_, hcap'⟩
    have hlen := setKey_length_found hd (countTokens (tokenize t), (tokenize t).length)
    simp only [hlen]
    exact hN

theorem Inv_transform {s : BM25State} (h : s.Inv) (ln : Rat → Rat) (t : String) :
    ((s.transform ln t).1).Inv := by
  rw [transform_fst_eq]
  exact h

theorem Inv_remove {s : BM25State} (h : s.Inv) (d : String) :
    (s.remove d).Inv := by
  obtain ⟨hpos, hdf, hdocs, hN, hcap⟩ := h
  cases hd : lookupKey s.docs d with
  | none => rw [remove_eq_not_found hd]; exact ⟨hpos, hdf, hdocs, hN, hcap⟩
  | some pr =>
    obtain ⟨otf, olen⟩ := pr
    rw [remove_eq_found hd]
    refine ⟨dfPos_foldDecDf hpos _, keysNodup_foldDecDf hdf _,
            keysNodup_eraseKey hdocs _, ?_, hcap⟩
    have hlen := eraseKey_length hd
    simp only
    rw [hN]
    have : 1 ≤ s.docs.length := by
      cases hdocs' : s.docs with
      | nil => rw [hdocs'] at hd; simp [lookupKey] at hd
      | cons q rest => simp [hdocs']
    omega

/-! ### Operation sequences -/

/-- One call against the shared `BM25Indexer` instance. -/
inductive BM25Op where
  | add (doc_id text : String)
  | query (text : String)
  | remove (doc_id : String)

/-- The state effect of one indexer call (returned vectors discarded). -/
def applyOp (ln : Rat → Rat) (s : BM25State) : BM25Op → BM25State
  | .add d t => (s.add_or_update ln d t).1
  | .query t => (s.transform ln t).1
  | .remove d => s.remove d

/-- The state after a sequence of indexer calls. -/
def applyOps (ln : Rat → Rat) (s : BM25State) (ops : List BM25Op) : BM25State :=
  ops.foldl (applyOp ln) s

/-- The score-emission loops of `add_or_update` and `transform`, characterized:
the ids are the vocabulary ids of the scored terms in order, the values the
scores of exactly the terms holding an id. -/
theorem emit_spec (V : List String) (sc : String × Nat → Rat) (tf : List (String × Nat))
    (acc : List Nat × List Rat) :
    (tf.foldl
      (fun (acc : List Nat × List Rat) p =>
        match vocabIdx V p.1 with
        | none => acc
        | some idx => (acc.1 ++ [idx], acc.2 ++ [sc p])) acc) =
      (acc.1 ++ tf.filterMap (fun p => vocabIdx V p.1),
       acc.2 ++ (tf.filter (fun p => (vocabIdx V p.1).isSome)).map sc) := by
  induction tf generalizing acc with
  | nil => simp
  | cons p rest ih =>
    cases hv : vocabIdx V p.1 with
    | none =>
      simp only [List.foldl_cons, List.filterMap_cons, List.filter_cons, hv,
        Option.isSome_none, Bool.false_eq_true, if_false, ih]
    | some idx =>
      simp only [List.foldl_cons, List.filterMap_cons, List.filter_cons, hv,
        Option.isSome_some, if_true, ih, List.map_cons]
      simp

/-! ### Claim theorems for the BM25 indexer -/

/-- A small concrete starting state shared by the witnesses below. -/
def s0 : BM25State := BM25State.init 32768 (3/2) (3/4)

/-- C4: for every input text and every index state, `transform` leaves the
entire index state unchanged — `N`, the df map, the total length, the document
records and the vocabulary are those of the input state.  Repeated calls
therefore also leave the state unchanged. -/
theorem claim_C4_transform_no_mutation (ln : Rat → Rat) (s : BM25State) (text : String) :
    (s.transform ln text).1 = s :=
  transform_fst_eq s ln text

/-- C5: whenever the corpus is empty (`N = 0`), `transform` returns a pair of
empty id and value arrays, regardless of the input text and of the remaining
vocabulary. -/
theorem claim_C5_transform_empty_corpus (ln : Rat → Rat) (s : BM25State)
    (text : String) (h : s.N = 0) : (s.transform ln text).2 = ([], []) := by
  unfold BM25State.transform
  simp [h]

/-- Witness for C5 at the freshly initialized indexer and a nonempty query. -/
theorem claim_C5_witness :
    s0.N = 0 ∧ (s0.transform id "hello world").2 = ([], []) :=
  ⟨rfl, claim_C5_transform_empty_corpus id s0 "hello world" rfl⟩

/-- C7: every sequence of `add_or_update`, `transform` and `remove` calls
preserves the state invariant: positive stored document frequencies (absence
from the df map is exactly frequency zero), `N` equal to the number of
document ids present, and vocabulary size within the configured cap. -/
theorem claim_C7_invariant_preserved (ln : Rat → Rat) (s : BM25State) (h : s.Inv)
    (ops : List BM25Op) : (applyOps ln s ops).Inv := by
  induction ops generalizing s with
  | nil => exact h
  | cons op rest ih =>
    show (applyOps ln (applyOp ln s op) rest).Inv
    cases op with
    | add d t => exact ih _ (Inv_add_or_update h ln d t)
    | query t => exact ih _ (Inv_transform h ln t)
    | remove d => exact ih _ (Inv_remove h d)

/-- Witness for C7: a concrete mixed sequence of calls from the fresh state. -/
theorem claim_C7_witness :
    (applyOps id s0
      [BM25Op.add "1" "alpha beta beta", BM25Op.query "beta",
       BM25Op.add "1" "alpha", BM25Op.add "2" "gamma beta",
       BM25Op.remove "1", BM25Op.remove "missing"]).Inv :=
  claim_C7_invariant_preserved id s0 (by decide) _

/-- C6: from any state satisfying the indexer invariant, calling
`add_or_update` twice with the same document id and text leaves the df map
(observed through lookups, i.e. as the dict it models), `N` and the total
document length exactly as after a single call: a same-id replace fully
subtracts the prior contribution before re-adding it. -/
theorem claim_C6_reindex_idempotent (ln : Rat → Rat) (s : BM25State) (h : s.Inv)
    (d t : String) :
    (∀ term, lookupKey (((s.add_or_update ln d t).1.add_or_update ln d t).1).df term =
        lookupKey ((s.add_or_update ln d t).1).df term) ∧
    (((s.add_or_update ln d t).1.add_or_update ln d t).1).N =
      ((s.add_or_update ln d t).1).N ∧
    (((s.add_or_update ln d t).1.add_or_update ln d t).1).doc_lens_total =
      ((s.add_or_update ln d t).1).doc_lens_total := by
  obtain ⟨hpos, hdf, hdocs, hN, hcap⟩ := h
  have htf := countTokens_keysNodup (tokenize t)
  cases hd : lookupKey s.docs d with
  | none =>
    obtain ⟨V, h1⟩ := add_or_update_fst_not_found hd ln t
    have hlook : lookupKey ((s.add_or_update ln d t).1).docs d =
        some (countTokens (tokenize t), (tokenize t).length) := by
      rw [h1]
      exact lookupKey_setKey_self _ _ _
    obtain ⟨W, h2⟩ := add_or_update_fst_found hlook ln t
    refine ⟨?_, ?_, ?_⟩
    · intro u
      rw [h2, h1]
      exact foldDecDf_foldIncDf_cancel hdf hpos htf u
    · rw [h2]
    · rw [h2, h1]
      simp only
      omega
  | some pr =>
    obtain ⟨otf, olen⟩ := pr
    obtain ⟨V, h1⟩ := add_or_update_fst_found hd ln t
    have hlook : lookupKey ((s.add_or_update ln d t).1).docs d =
        some (countTokens (tokenize t), (tokenize t).length) := by
      rw [h1]
      exact lookupKey_setKey_self _ _ _
    obtain ⟨W, h2⟩ := add_or_update_fst_found hlook ln t
    refine ⟨?_, ?_, ?_⟩
    · intro u
      rw [h2, h1]
      exact foldDecDf_foldIncDf_cancel (keysNodup_foldDecDf hdf otf)
        (dfPos_foldDecDf hpos otf) htf u
    · rw [h2]
    · rw [h2, h1]
      simp only
      omega

/-- Witness for C6: double insertion of one concrete document from the fresh
state, observed at the document's own repeated term. -/
theorem claim_C6_witness :
    lookupKey (((s0.add_or_update id "d" "a b a").1.add_or_update id "d" "a b a").1).df "a" =
      lookupKey ((s0.add_or_update id "d" "a b a").1).df "a" ∧
    (((s0.add_or_update id "d" "a b a").1.add_or_update id "d" "a b a").1).N =
      ((s0.add_or_update id "d" "a b a").1).N ∧
    (((s0.add_or_update id "d" "a b a").1.add_or_update id "d" "a b a").1).doc_lens_total =
      ((s0.add_or_update id "d" "a b a").1).doc_lens_total :=
  ⟨(claim_C6_reindex_idempotent id s0 (by decide) "d" "a b a").1 "a",
   (claim_C6_reindex_idempotent id s0 (by decide) "d" "a b a").2.1,
   (claim_C6_reindex_idempotent id s0 (by decide) "d" "a b a").2.2⟩

/-- C9: terms that hold no vocabulary id are excluded only from the returned
sparse vector.  The statistics written by `add_or_update` — the df map, `N`,
the total length and the document records — are identical under any change of
the vocabulary cap (in particular a cap of 0, under which no term is ever
scored); every distinct token of the document is present in the df map
afterwards; and the emitted id list consists of exactly the tokens holding a
vocabulary id. -/
theorem claim_C9_cap_only_affects_output (ln : Rat → Rat) (s : BM25State)
    (d t : String) (cap2 : Nat) :
    ((s.add_or_update ln d t).1.df =
        (({ s with max_vocab := cap2 }).add_or_update ln d t).1.df) ∧
    ((s.add_or_update ln d t).1.N =
        (({ s with max_vocab := cap2 }).add_or_update ln d t).1.N) ∧
    ((s.add_or_update ln d t).1.doc_lens_total =
        (({ s with max_vocab := cap2 }).add_or_update ln d t).1.doc_lens_total) ∧
    ((s.add_or_update ln d t).1.docs =
        (({ s with max_vocab := cap2 }).add_or_update ln d t).1.docs) ∧
    (∀ p ∈ countTokens (tokenize t),
        (lookupKey (s.add_or_update ln d t).1.df p.1).isSome = true) ∧
    ((s.add_or_update ln d t).2.1 =
        (countTokens (tokenize t)).filterMap
          (fun p => vocabIdx (s.add_or_update ln d t).1.vocab p.1)) := by
  have htf := countTokens_keysNodup (tokenize t)
  have hout : (s.add_or_update ln d t).2.1 =
      (countTokens (tokenize t)).filterMap
        (fun p => vocabIdx (s.add_or_update ln d t).1.vocab p.1) := by
    conv_lhs => unfold BM25State.add_or_update
    conv_rhs => unfold BM25State.add_or_update
    dsimp only
    rw [emit_spec]
    simp
  cases hd : lookupKey s.docs d with
  | none =>
    obtain ⟨V, h1⟩ := add_or_update_fst_not_found hd ln t
    obtain ⟨W, h2⟩ :=
      add_or_update_fst_not_found (s := { s with max_vocab := cap2 }) hd ln t
    refine ⟨?_, ?_, ?_, ?_, ?_, hout⟩
    · rw [h1, h2]
    · rw [h1, h2]
    · rw [h1, h2]
    · rw [h1, h2]
    · intro p hp
      rw [h1]
      show (lookupKey (foldIncDf s.df (countTokens (tokenize t))) p.1).isSome = true
      rw [lookupKey_foldIncDf_mem htf (List.mem_map_of_mem Prod.fst hp)]
      rfl
  | some pr =>
    obtain ⟨otf, olen⟩ := pr
    obtain ⟨V, h1⟩ := add_or_update_fst_found hd ln t
    obtain ⟨W, h2⟩ :=
      add_or_update_fst_found (s := { s with max_vocab := cap2 }) hd ln t
    refine ⟨?_, ?_, ?_, ?_, ?_, hout⟩
    · rw [h1, h2]
    · rw [h1, h2]
    · rw [h1, h2]
    · rw [h1, h2]
    · intro p hp
      rw [h1]
      show (lookupKey (foldIncDf (foldDecDf s.df otf) (countTokens (tokenize t)))
        p.1).isSome = true
      rw [lookupKey_foldIncDf_mem htf (List.mem_map_of_mem Prod.fst hp)]
      rfl

/-- C10: under the default constants `k1 = 1.5` and `b = 0.75` and the state
invariant, no divisor of the scoring computation is zero: every counted term
has frequency at least 1 and the BM25 denominator is strictly positive, the
idf divisor `df + 0.5` is strictly positive, the length-normalization divisor
`max(1.0, avgdl)` is strictly positive, and the `avgdl` division by `N` only
happens when `N` is nonzero. -/
theorem claim_C10_no_division_by_zero (s : BM25State) (h : s.Inv)
    (hk : s.k1 = 3/2) (hb : s.b = 3/4) (text : String) :
    (∀ p ∈ countTokens (tokenize text),
        1 ≤ p.2 ∧ 0 < scoreDenom s.k1 s.b p.2 (tokenize text).length s.avgdl) ∧
    (∀ term, 0 < ((s.dfGet term : Int) : Rat) + 1/2) ∧
    (0 < max (1 : Rat) s.avgdl) ∧
    (0 < s.N → ((s.N : Int) : Rat) ≠ 0) := by
  have hmax : (0 : Rat) < max 1 s.avgdl := lt_of_lt_of_le one_pos (le_max_left _ _)
  refine ⟨?_, ?_, hmax, ?_⟩
  · intro p hp
    have hfreq : 1 ≤ p.2 := countTokens_pos _ p hp
    refine ⟨hfreq, ?_⟩
    have hx : (0:Rat) ≤ ((tokenize text).length : Rat) / max 1 s.avgdl :=
      div_nonneg (Nat.cast_nonneg _) hmax.le
    have hfq : (1:Rat) ≤ (p.2 : Rat) := by exact_mod_cast hfreq
    unfold scoreDenom
    rw [hk, hb]
    nlinarith [hx, hfq]
  · intro term
    have h0 : (0:Int) ≤ s.dfGet term := dfPos_getD h.1 term
    have h1 : (0:Rat) ≤ ((s.dfGet term : Int) : Rat) := by exact_mod_cast h0
    linarith
  · intro hN
    have : (0:Rat) < ((s.N : Int) : Rat) := by exact_mod_cast hN
    exact ne_of_gt this

/-- Witness for C10 at the fresh state and a concrete three-token text. -/
theorem claim_C10_witness :
    (1 ≤ 2 ∧ 0 < scoreDenom s0.k1 s0.b 2 (tokenize "hello hello world").length s0.avgdl) ∧
    (0 < ((s0.dfGet "absent" : Int) : Rat) + 1/2) ∧
    (0 < max (1 : Rat) s0.avgdl) ∧
    (0 < s0.N → ((s0.N : Int) : Rat) ≠ 0) :=
  ⟨(claim_C10_no_division_by_zero s0 (by decide) rfl rfl "hello hello world").1
      ("hello", 2) (by decide),
   (claim_C10_no_division_by_zero s0 (by decide) rfl rfl "hello hello world").2.1 "absent",
   (claim_C10_no_division_by_zero s0 (by decide) rfl rfl "hello hello world").2.2.1,
   (claim_C10_no_division_by_zero s0 (by decide) rfl rfl "hello hello world").2.2.2⟩

/-- Modelled from the claim text, for comparison only: the BM25 weight exactly
as the claim states it, with the length normalization dividing by `avgdl`
itself rather than by `max(1.0, avgdl)`. -/
def specScoreNoGuard (ln : Rat → Rat) (k1 b : Rat) (N df : Int) (freq doc_len : Nat)
    (avgdl : Rat) : Rat :=
  ln (1 + ((N : Rat) - (df : Rat) + 1/2) / ((df : Rat) + 1/2)) *
    ((freq : Rat) * (k1 + 1) /
      ((freq : Rat) + k1 * (1 - b + b * ((doc_len : Rat) / avgdl))))

/-- A reachable state whose average document length is 1/2 — below 1, so the
`max(1.0, avgdl)` guard in the scoring denominator is active: one empty
document and one single-token document. -/
def twoDocState : BM25State :=
  (((BM25State.init 32768 (3/2) (3/4)).add_or_update id "a" "").1.add_or_update
    id "b" "x").1

/-- C3 (amended): every weight emitted by `add_or_update` equals
`ln(1 + (N - df + 0.5)/(df + 0.5)) * freq*(k1+1) / (freq + k1*(1 - b +
b*(doc_len / max(1.0, avgdl))))` — that is `bm25Score` — evaluated at the
post-update statistics (the returned state), and likewise every weight
emitted by `transform` at the current statistics; the amendment relative to
the claim is the `max(1.0, ·)` guard on `avgdl`, which the code applies and
the claim omits. -/
theorem claim_C3_score_formula (ln : Rat → Rat) (s : BM25State) (d t q : String) :
    ((s.add_or_update ln d t).2.2 =
      ((countTokens (tokenize t)).filter
          (fun p => (vocabIdx (s.add_or_update ln d t).1.vocab p.1).isSome)).map
        (fun p => bm25Score ln (s.add_or_update ln d t).1.k1
          (s.add_or_update ln d t).1.b (s.add_or_update ln d t).1.N
          ((s.add_or_update ln d t).1.dfGet p.1) p.2 (tokenize t).length
          (s.add_or_update ln d t).1.avgdl)) ∧
    (s.N ≠ 0 →
      (s.transform ln q).2.2 =
        ((countTokens (tokenize q)).filter
            (fun p => (vocabIdx s.vocab p.1).isSome)).map
          (fun p => bm25Score ln s.k1 s.b s.N (s.dfGet p.1) p.2
            (tokenize q).length s.avgdl)) := by
  constructor
  · conv_lhs => unfold BM25State.add_or_update
    conv_rhs => unfold BM25State.add_or_update
    dsimp only
    rw [emit_spec]
    simp
  · intro hq
    conv_lhs => unfold BM25State.transform
    dsimp only
    rw [if_neg hq]
    dsimp only
    rw [emit_spec]
    simp

/-- Counterexample to C3 as stated: in the reachable state `twoDocState`
(average document length 1/2) the weight emitted by `transform` for the query
"x" differs from the claim's formula, which divides the length normalization
by `avgdl` itself.  Here `ln` is instantiated with the identity; the two
sides share the same idf factor `ln 2`, which is nonzero for the real
logarithm as well, so the discrepancy is not an artifact of the
instantiation. -/
theorem claim_C3_counterexample :
    (twoDocState.transform id "x").2.2 ≠
      [specScoreNoGuard id twoDocState.k1 twoDocState.b twoDocState.N
        (twoDocState.dfGet "x") 1 1 twoDocState.avgdl] := by
  have hst : twoDocState =
      { max_vocab := 32768, k1 := 3/2, b := 3/4, vocab := ["x"], df := [("x", 1)],
        N := 2, doc_lens_total := 1,
        docs := [("a", ([], 0)), ("b", ([("x", 1)], 1))] } := rfl
  rw [hst]
  simp [BM25State.transform, countTokens, tokenize, strLower, tokenizeAux, isWordChar,
    bumpTf, vocabIdx, BM25State.dfGet, lookupKey, BM25State.avgdl, bm25Score, scoreDenom,
    specScoreNoGuard, max_def]
  norm_num

/-- Witness for the amended C3 at a concrete state with a nonempty corpus. -/
theorem claim_C3_witness :
    ((twoDocState.add_or_update id "c" "beta").2.2 =
      ((countTokens (tokenize "beta")).filter
          (fun p => (vocabIdx (twoDocState.add_or_update id "c" "beta").1.vocab
            p.1).isSome)).map
        (fun p => bm25Score id (twoDocState.add_or_update id "c" "beta").1.k1
          (twoDocState.add_or_update id "c" "beta").1.b
          (twoDocState.add_or_update id "c" "beta").1.N
          ((twoDocState.add_or_update id "c" "beta").1.dfGet p.1) p.2
          (tokenize "beta").length
          (twoDocState.add_or_update id "c" "beta").1.avgdl)) ∧
    ((twoDocState.transform id "x").2.2 =
      ((countTokens (tokenize "x")).filter
          (fun p => (vocabIdx twoDocState.vocab p.1).isSome)).map
        (fun p => bm25Score id twoDocState.k1 twoDocState.b twoDocState.N
          (twoDocState.dfGet p.1) p.2 (tokenize "x").length twoDocState.avgdl)) :=
  ⟨(claim_C3_score_formula id twoDocState "c" "beta" "x").1,
   (claim_C3_score_formula id twoDocState "c" "beta" "x").2 (by decide)⟩

/-! ### Connector layer (`QdrantConnector`) -/

/-- Model of arbitrary JSON-like metadata (opaque to the connector). -/
abbrev Metadata := List (String × String)

/-- `Entry`: a single entry in the Qdrant collection. -/
structure Entry where
  content : String
  metadata : Option Metadata := none
  id : Option String := none
deriving Repr, DecidableEq

/-- The payload written with every stored point:
`{"document": ..., "metadata": ...}` (with `METADATA_PATH = "metadata"`). -/
structure Payload where
  document : String
  metadata : Option Metadata
deriving Repr, DecidableEq

/-- A stored point: id, named dense vector, optional `"sparse"` vector entry,
payload. -/
structure PointRec where
  id : String
  denseName : String
  denseVec : List Rat
  sparse : Option (List Nat × List Rat)
  payload : Payload
deriving Repr, DecidableEq

/-- A scored point as returned by the Query API; its payload may be absent. -/
structure ScoredPoint where
  id : String
  payload : Option Payload
deriving Repr, DecidableEq

/-- `models.Fusion`. -/
inductive Fusion where
  | RRF
  | DBSF
deriving Repr, DecidableEq

/-- The query carried by a prefetch: dense vector or sparse vector. -/
inductive QueryVec where
  | dense (v : List Rat)
  | sparse (ids : List Nat) (values : List Rat)
deriving Repr, DecidableEq

/-- `models.Prefetch`. -/
structure Prefetch where
  query : QueryVec
  usingName : String
  limit : Nat
deriving Repr, DecidableEq

/-- Opaque model of `models.Filter`. -/
abbrev QFilter := List (String × String)

/-- The async Qdrant client: stored collections as explicit data, the two
query endpoints as deterministic oracles.  The fused multi-stage call returns
an `Except` so that its failure modes can be analysed. -/
structure Client where
  collections : List (String × List PointRec)
  queryDenseF : String → List Rat → String → Nat → Option QFilter → List ScoredPoint
  queryFusedF : String → List Prefetch → Fusion → Nat → Option QFilter →
    Except String (List ScoredPoint)

/-- `client.collection_exists(name)`. -/
def Client.collection_exists (c : Client) (name : String) : Bool :=
  (lookupKey c.collections name).isSome

/-- `client.retrieve(collection_name, ids=[point_id])`; fails when the
collection does not exist. -/
def Client.retrieve (c : Client) (coll pid : String) : Except String (List PointRec) :=
  match lookupKey c.collections coll with
  | none => .error ("Collection " ++ coll ++ " not found")
  | some pts => .ok (pts.filter (fun p => p.id = pid))

/-- Replace-or-append of one point by id, the semantics of `client.upsert`. -/
def upsertPoint : List PointRec → PointRec → List PointRec
  | [], p => [p]
  | q :: rest, p => if q.id = p.id then p :: rest else q :: upsertPoint rest p

/-- `client.upsert` into a collection (the callers below only reach it after an
existence check, so a missing collection is modelled as empty). -/
def Client.upsert (c : Client) (coll : String) (p : PointRec) : Client :=
  { c with collections :=
      (setKey c.collections coll
        (upsertPoint ((lookupKey c.collections coll).getD []) p)) }

/-- `client.delete` with a `PointIdsList([point_id])` selector. -/
def Client.deletePoints (c : Client) (coll pid : String) : Client :=
  { c with collections :=
      (setKey c.collections coll
        (((lookupKey c.collections coll).getD []).filter (fun p => ¬ p.id = pid))) }

/-- The embedding-provider interface consumed by the connector, as
deterministic oracles. -/
structure EmbedProvider where
  embedDocsF : String → List Rat
  embedQueryF : String → List Rat
  vectorNameF : String

/-- The state of a `QdrantConnector`: its client, its default collection name
and its private BM25 indexer. -/
structure ConnState where
  client : Client
  default_collection : Option String
  bm25 : BM25State

/-- Python truthiness resolution
`collection_name or self._default_collection_name` (the empty string is
falsy). -/
def resolveCollection (cn dflt : Option String) : Option String :=
  match cn with
  | some s => if s = "" then dflt else some s
  | none => dflt

/-- `QdrantConnector.update`: retrieve-check first (raising `ValueError` on a
missing point before any embedding, indexing or upsert), then re-embed,
re-index in BM25 and upsert the rebuilt point.  The `Except.error` result
carries no state: nothing has been mutated when it is produced. -/
def QdrantConnector.update (ln : Rat → Rat) (prov : EmbedProvider) (c : ConnState)
    (point_id : String) (entry : Entry) (collection_name : Option String) :
    Except String ConnState :=
  match resolveCollection collection_name c.default_collection with
  | none => .error "assert collection_name is not None"
  | some coll =>
    match c.client.retrieve coll point_id with
    | .error e => .error e
    | .ok pts =>
      if pts.isEmpty then .error ("Point with ID " ++ point_id ++ " not found")
      else
        let embedding := prov.embedDocsF entry.content
        let res := c.bm25.add_or_update ln point_id entry.content
        let pt : PointRec :=
          { id := point_id, denseName := prov.vectorNameF, denseVec := embedding,
            sparse := if res.2.1.isEmpty then none else some (res.2.1, res.2.2),
            payload := { document := entry.content, metadata := entry.metadata } }
        .ok { c with client := c.client.upsert coll pt, bm25 := res.1 }

/-- `QdrantConnector.delete`: retrieve-check first (raising `ValueError` on a
missing point before any deletion), then delete the point. -/
def QdrantConnector.delete (c : ConnState) (point_id : String)
    (collection_name : Option String) : Except String ConnState :=
  match resolveCollection collection_name c.default_collection with
  | none => .error "assert collection_name is not None"
  | some coll =>
    match c.client.retrieve coll point_id with
    | .error e => .error e
    | .ok pts =>
      if pts.isEmpty then .error ("Point with ID " ++ point_id ++ " not found")
      else .ok { c with client := c.client.deletePoints coll point_id }

/-- `QdrantConnector.search`: plain dense-only search.  An unresolvable
collection name or a missing collection yields the empty list.  A point
without payload would raise a `KeyError` in Python; the model reads an empty
document instead — the oracles of the claims below never produce such
points. -/
def QdrantConnector.search (prov : EmbedProvider) (c : ConnState) (query : String)
    (collection_name : Option String) (limit : Nat)
    (query_filter : Option QFilter) : List Entry :=
  match resolveCollection collection_name c.default_collection with
  | none => []
  | some coll =>
    if c.client.collection_exists coll = false then []
    else
      let query_vector := prov.embedQueryF query
      let search_results :=
        c.client.queryDenseF coll query_vector prov.vectorNameF limit query_filter
      search_results.map (fun r =>
        { content := (r.payload.map Payload.document).getD "",
          metadata := r.payload.bind Payload.metadata,
          id := some r.id })

/-- The fusion-method selection of `find_hybrid` (line 412 of `qdrant.py`):
`models.Fusion.RRF if fusion_method.lower() == "rrf" else models.Fusion.DBSF`. -/
def fusionType (fusion_method : String) : Fusion :=
  if strLower fusion_method = "rrf" then Fusion.RRF else Fusion.DBSF

/-- The prefetch list built by `find_hybrid`: the dense query, plus the sparse
BM25 query when the locally computed sparse vector is nonempty. -/
def hybridPrefetch (ln : Rat → Rat) (prov : EmbedProvider) (c : ConnState)
    (query : String) (dense_limit sparse_limit : Nat) : List Prefetch :=
  let densePf : Prefetch :=
    { query := QueryVec.dense (prov.embedQueryF query),
      usingName := prov.vectorNameF, limit := dense_limit }
  let res := (c.bm25.transform ln query).2
  if res.1.isEmpty then [densePf]
  else
    [densePf,
     { query := QueryVec.sparse res.1 res.2, usingName := "sparse",
       limit := sparse_limit }]

/-- `QdrantConnector.find_hybrid`: hybrid search via the fused Query API,
falling back to `search` with `final_limit` on any failure of the fused
call.  The local sparse computation (`transform`) is total in this model, so
the inner `except` of the source cannot fire; the outer one is the `.error`
branch of the fused oracle. -/
def QdrantConnector.find_hybrid (ln : Rat → Rat) (prov : EmbedProvider)
    (c : ConnState) (query : String) (collection_name : Option String)
    (fusion_method : String) (dense_limit sparse_limit final_limit : Nat)
    (query_filter : Option QFilter) : List Entry :=
  match resolveCollection collection_name c.default_collection with
  | none => []
  | some coll =>
    if c.client.collection_exists coll = false then []
    else
      let prefetch_queries := hybridPrefetch ln prov c query dense_limit sparse_limit
      let fusion_type := fusionType fusion_method
      match c.client.queryFusedF coll prefetch_queries fusion_type final_limit
          query_filter with
      | .ok results =>
        results.map (fun r =>
          { content := (r.payload.map Payload.document).getD "",
            metadata := r.payload.bind Payload.metadata,
            id := some r.id })
      | .error _ =>
        QdrantConnector.search prov c query (some coll) final_limit query_filter

/-! ### Claim theorems for the connector -/

/-- Counterexample to C1 as stated: the string "RRF" is not equal to "rrf",
yet it selects reciprocal-rank fusion — the comparison
`fusion_method.lower() == "rrf"` is case-insensitive, so the claim that only
the exact string "rrf" selects RRF (and that "RRF" selects DBSF) is false. -/
theorem claim_C1_counterexample :
    fusionType "RRF" = Fusion.RRF ∧ "RRF" ≠ "rrf" := by decide

/-- C1 (amended): fusion-method selection is a case-insensitive match — RRF is
selected exactly when the lowercased method string equals "rrf"; every other
string, including "dbsf" and unrecognized variants such as "typo", selects
DBSF. -/
theorem claim_C1_fusion_selection (m : String) :
    (fusionType m = Fusion.RRF ↔ strLower m = "rrf") ∧
    fusionType "RRF" = Fusion.RRF ∧ fusionType "rRf" = Fusion.RRF ∧
    fusionType "dbsf" = Fusion.DBSF ∧ fusionType "typo" = Fusion.DBSF := by
  refine ⟨?_, by decide, by decide, by decide, by decide⟩
  by_cases h : strLower m = "rrf" <;> simp [fusionType, h]

/-- C2: whenever the fused multi-stage call of `find_hybrid` fails (for any
reason, including the collection not supporting sparse vectors), `find_hybrid`
returns exactly the result of a plain dense-only `search` with the same
query, the same filter and limit `final_limit`, and no failure propagates to
the caller. -/
theorem claim_C2_fused_failure_falls_back (ln : Rat → Rat) (prov : EmbedProvider)
    (c : ConnState) (query : String) (cn : Option String) (fusion_method : String)
    (dense_limit sparse_limit final_limit : Nat) (query_filter : Option QFilter)
    {coll : String} {e : String}
    (hres : resolveCollection cn c.default_collection = some coll)
    (hex : c.client.collection_exists coll = true)
    (herr : c.client.queryFusedF coll
        (hybridPrefetch ln prov c query dense_limit sparse_limit)
        (fusionType fusion_method) final_limit query_filter = Except.error e) :
    QdrantConnector.find_hybrid ln prov c query cn fusion_method dense_limit
        sparse_limit final_limit query_filter =
      QdrantConnector.search prov c query (some coll) final_limit query_filter := by
  unfold QdrantConnector.find_hybrid
  rw [hres]
  dsimp only
  rw [hex, herr]
  simp

/-- A client whose fused endpoint always fails, over an existing empty
collection. -/
def wClient : Client :=
  { collections := [("memories", [])],
    queryDenseF := fun _ _ _ _ _ => [],
    queryFusedF := fun _ _ _ _ _ => .error "hybrid search failed" }

/-- A deterministic embedding provider for the witnesses. -/
def wProv : EmbedProvider :=
  { embedDocsF := fun _ => [1], embedQueryF := fun _ => [1], vectorNameF := "fast" }

/-- Connector state over `wClient` with default collection "memories". -/
def wConn : ConnState :=
  { client := wClient, default_collection := some "memories", bm25 := s0 }

/-- Witness for C2: the always-failing fused endpoint makes `find_hybrid`
return the dense-only search result. -/
theorem claim_C2_witness :
    QdrantConnector.find_hybrid id wProv wConn "what do you remember" none "rrf"
        20 20 10 none =
      QdrantConnector.search wProv wConn "what do you remember" (some "memories")
        10 none :=
  claim_C2_fused_failure_falls_back id wProv wConn "what do you remember" none "rrf"
    20 20 10 none rfl rfl rfl

/-- C8: when the target point id does not exist in the collection, `update`
and `delete` both report the not-found condition as an error (`ValueError` in
the source) produced before any upsert, deletion, embedding or BM25 mutation:
the `Except.error` result carries no successor state, and in the source the
`raise` precedes every mutating statement. -/
theorem claim_C8_not_found_no_mutation (ln : Rat → Rat) (prov : EmbedProvider)
    (c : ConnState) (pid : String) (entry : Entry) (cn : Option String)
    {coll : String} {pts : List PointRec}
    (hres : resolveCollection cn c.default_collection = some coll)
    (hcoll : lookupKey c.client.collections coll = some pts)
    (habs : ∀ p ∈ pts, p.id ≠ pid) :
    QdrantConnector.update ln prov c pid entry cn =
        Except.error ("Point with ID " ++ pid ++ " not found") ∧
    QdrantConnector.delete c pid cn =
        Except.error ("Point with ID " ++ pid ++ " not found") := by
  have hret : c.client.retrieve coll pid = .ok [] := by
    unfold Client.retrieve
    rw [hcoll]
    have hfil : pts.filter (fun p => p.id = pid) = [] := by
      rw [List.filter_eq_nil_iff]
      intro p hp
      simpa using habs p hp
    dsimp only
    rw [hfil]
  constructor
  · unfold QdrantConnector.update
    rw [hres]
    dsimp only
    rw [hret]
    rfl
  · unfold QdrantConnector.delete
    rw [hres]
    dsimp only
    rw [hret]
    rfl

/-- A client holding one point "a" in collection "notes". -/
def w8Client : Client :=
  { collections :=
      [("notes",
        [{ id := "a", denseName := "fast", denseVec := [1], sparse := none,
           payload := { document := "hello", metadata := none } }])],
    queryDenseF := fun _ _ _ _ _ => [],
    queryFusedF := fun _ _ _ _ _ => .ok [] }

/-- Connector state over `w8Client` with default collection "notes". -/
def w8Conn : ConnState :=
  { client := w8Client, default_collection := some "notes", bm25 := s0 }

/-- Witness for C8: updating and deleting the missing id "b". -/
theorem claim_C8_witness :
    QdrantConnector.update id wProv w8Conn "b" { content := "new" } none =
        Except.error "Point with ID b not found" ∧
    QdrantConnector.delete w8Conn "b" none =
        Except.error "Point with ID b not found" :=
  claim_C8_not_found_no_mutation id wProv w8Conn "b" { content := "new" } none
    rfl rfl (by decide)

end MCPQdrant
